import Mathlib

/-!
Verification of the clause-minimization engine in `src/main.rs` of
staktrace/supercollapser.

Literals are strings, a clause (`tokenset` in the source) is a `List String`,
and a clause group is a `List (List String)`.  Every definition below is a
direct translation of the corresponding Rust function; the fixed-point
driver `collapse` is rendered with explicit fuel bounded by a decreasing
measure, so that every definition remains executable.
-/

namespace SuperCollapser

/-- A collapse rule: `prerequisites` and `alternatives`, as in the Rust
struct `CollapseRule`. -/
structure CollapseRule where
  prerequisites : List String
  alternatives : List String
deriving DecidableEq, Repr

/-- Rust `match_prereqs`: every prerequisite of the rule occurs in the
tokenset. -/
def match_prereqs (rule : CollapseRule) (tokenset : List String) : Bool :=
  rule.prerequisites.all (fun prereq => tokenset.any (fun t => t == prereq))

/-- Rust `has_token`: the token occurs in the tokenset. -/
def has_token (token : String) (tokenset : List String) : Bool :=
  tokenset.any (fun t => t == token)

/-- Rust `strip_token`: remove every occurrence of the token. -/
def strip_token (token : String) (tokenset : List String) : List String :=
  tokenset.filter (fun t => t != token)

/-- Rust `try_collapse`: single-clause reduction.  Fires only for a rule
with exactly one alternative, when all prerequisites and the alternative
are present; the alternative is then stripped. -/
def try_collapse (tokenset : List String) (rule : CollapseRule) :
    Option (List String) :=
  match rule.alternatives with
  | [alt] =>
    if match_prereqs rule tokenset then
      if has_token alt tokenset then some (strip_token alt tokenset)
      else none
    else none
  | _ => none

/-- Rust `flip`: textual negation.  If the token starts with `"not "` the
first four characters are dropped, otherwise `"not "` is prepended. -/
def flip (token : String) : String :=
  if "not ".data.isPrefixOf token.data then String.mk (token.data.drop 4)
  else "not " ++ token

/-- The scanning loop of Rust `try_collapse_flip`: walk the literals of `a`
carrying the `flipped` flag, keeping literals present in `b` and consuming
at most one flip. -/
def flipScan (b : List String) (flipped : Bool) :
    List String → Option (List String)
  | [] => some []
  | tok :: rest =>
    if b.contains tok then
      (flipScan b flipped rest).map (fun r => tok :: r)
    else if !flipped && b.contains (flip tok) then
      flipScan b true rest
    else
      none

/-- Rust `try_collapse_flip`: generic flip-merge of two equal-size
clauses. -/
def try_collapse_flip (a b : List String) : Option (List String) :=
  if a.length != b.length then none
  else flipScan b false a

/-- Rust `remaining_alt`: given one of the two alternatives of a rule,
return the other one; `none` if the token is not an alternative.  (The
Rust code asserts that the rule has exactly two alternatives; its only
caller guarantees this.) -/
def remaining_alt (used_alt : String) (rule : CollapseRule) : Option String :=
  match rule.alternatives with
  | [alt0, alt1] =>
    if alt0 == used_alt then some alt1
    else if alt1 == used_alt then some alt0
    else none
  | _ => none

/-- The scanning loop of Rust `try_collapse2`, carrying the `matched`
flag.  Note the faithful rendering of the source's fall-through: when a
token of `a` is an alternative of the rule but `b` contains neither the
token nor the other alternative, the Rust loop body reaches its end
without pushing the token and without setting `matched`, so the token is
silently dropped and scanning continues. -/
def c2Scan (b : List String) (rule : CollapseRule) (matched : Bool) :
    List String → Option (List String)
  | [] => some []
  | tok :: rest =>
    if b.contains tok then
      (c2Scan b rule matched rest).map (fun r => tok :: r)
    else if matched then
      none
    else
      match remaining_alt tok rule with
      | some alt =>
        if b.contains alt then c2Scan b rule true rest
        else c2Scan b rule matched rest
      | none => none

/-- Rust `try_collapse2`: rule-guided merge of two equal-size clauses for
a rule with exactly two alternatives whose prerequisites both clauses
satisfy. -/
def try_collapse2 (a b : List String) (rule : CollapseRule) :
    Option (List String) :=
  if rule.alternatives.length != 2 then none
  else if a.length != b.length then none
  else if !match_prereqs rule a then none
  else if !match_prereqs rule b then none
  else c2Scan b rule false a

/-- Rust `build_collapse_rules`: the fixed, hand-authored rule catalog. -/
def build_collapse_rules : List CollapseRule :=
  [ -- MacOS rules
    ⟨["(os == \"mac\")"], ["(version == \"OS X 10.10.5\")"]⟩,
    ⟨["(os == \"mac\")"], ["e10s"]⟩,
    ⟨["(os == \"mac\")"], ["not webrender"]⟩,
    ⟨["(os == \"mac\")"], ["(processor == \"x86_64\")"]⟩,
    ⟨["(os == \"mac\")"], ["(bits == 64)"]⟩,
    -- Win32 rules
    ⟨["(os == \"win\")", "(version == \"6.1.7601\")"], ["e10s"]⟩,
    ⟨["(os == \"win\")", "(version == \"6.1.7601\")"], ["not webrender"]⟩,
    ⟨["(os == \"win\")", "(version == \"6.1.7601\")"],
      ["(processor == \"x86\")"]⟩,
    ⟨["(os == \"win\")", "(version == \"6.1.7601\")"], ["(bits == 32)"]⟩,
    -- Win64 rules
    ⟨["(os == \"win\")", "(version == \"10.0.15063\")"], ["e10s"]⟩,
    ⟨["(os == \"win\")", "(version == \"10.0.15063\")"],
      ["(processor == \"x86_64\")"]⟩,
    ⟨["(os == \"win\")", "(version == \"10.0.15063\")"], ["(bits == 64)"]⟩,
    -- Win WebRender implies win10
    ⟨["(os == \"win\")", "webrender"], ["(version == \"10.0.15063\")"]⟩,
    -- Win version collapsing
    ⟨["(os == \"win\")"],
      ["(version == \"6.1.7601\")", "(version == \"10.0.15063\")"]⟩,
    -- Linux rules
    ⟨["(os == \"linux\")"], ["(version == \"Ubuntu 16.04\")"]⟩,
    ⟨["(os == \"linux\")", "(processor == \"x86_64\")"], ["(bits == 64)"]⟩,
    ⟨["(os == \"linux\")", "(processor == \"x86\")"], ["(bits == 32)"]⟩,
    ⟨["(os == \"linux\")", "(processor == \"x86\")"], ["not webrender"]⟩,
    ⟨["(os == \"linux\")"],
      ["(processor == \"x86_64\")", "(processor == \"x86\")"]⟩,
    -- Linux WebRender implies 64-bit and e10s
    ⟨["(os == \"linux\")", "webrender"], ["(processor == \"x86_64\")"]⟩,
    ⟨["(os == \"linux\")", "webrender"], ["e10s"]⟩,
    -- Android means no webrender, no e10s
    ⟨["(os == \"android\")"], ["not webrender"]⟩,
    ⟨["(os == \"android\")"], ["not e10s"]⟩ ]

/-- First loop nest of Rust `collapse`: scan `i` from `0` upward and `j`
from `0` to `i - 1`, and perform the first flip-merge that fires:
`tokensets[j]` is overwritten with the merged result and `tokensets[i]`
is removed. -/
def firstFlipMerge (ts : List (List String)) : Option (List (List String)) :=
  (List.range ts.length).findSome? (fun i =>
    (List.range i).findSome? (fun j =>
      (try_collapse_flip (ts.getD i []) (ts.getD j [])).map
        (fun set => (ts.set j set).eraseIdx i)))

/-- Second loop nest of Rust `collapse`: same pair scan, trying each
catalog rule's two-clause merge. -/
def firstRuleMerge (ts : List (List String)) : Option (List (List String)) :=
  (List.range ts.length).findSome? (fun i =>
    (List.range i).findSome? (fun j =>
      build_collapse_rules.findSome? (fun rule =>
        (try_collapse2 (ts.getD i []) (ts.getD j []) rule).map
          (fun set => (ts.set j set).eraseIdx i))))

/-- Third loop nest of Rust `collapse`: the first single-clause reduction
that fires replaces the clause in place. -/
def firstSingle (ts : List (List String)) : Option (List (List String)) :=
  (List.range ts.length).findSome? (fun i =>
    build_collapse_rules.findSome? (fun rule =>
      (try_collapse (ts.getD i []) rule).map (fun set => ts.set i set)))

/-- One iteration of the `'top: loop` of Rust `collapse`: the first
successful merge in the source's scan order (`some` of the updated group),
or `none` when no operator fires and the loop breaks. -/
def collapseStep (ts : List (List String)) : Option (List (List String)) :=
  match firstFlipMerge ts with
  | some r => some r
  | none =>
    match firstRuleMerge ts with
    | some r => some r
    | none => firstSingle ts

/-- Total number of literals in a group, summed over all clauses. -/
def totalLits (ts : List (List String)) : Nat :=
  (ts.map List.length).sum

/-- Termination measure of the driver: total literal count plus clause
count. -/
def stepMeasure (ts : List (List String)) : Nat :=
  totalLits ts + ts.length

/-- The driver loop with explicit fuel. -/
def collapseFuel : Nat → List (List String) → List (List String)
  | 0, ts => ts
  | fuel + 1, ts =>
    match collapseStep ts with
    | some ts2 => collapseFuel fuel ts2
    | none => ts

/-- Rust `collapse`: run the driver to its fixed point.  `stepMeasure`
strictly decreases at every successful merge, so `stepMeasure ts + 1`
units of fuel always suffice. -/
def collapse (ts : List (List String)) : List (List String) :=
  collapseFuel (stepMeasure ts + 1) ts

/-- Number of successful merge applications performed by the driver,
with explicit fuel. -/
def collapseCountFuel : Nat → List (List String) → Nat
  | 0, _ => 0
  | fuel + 1, ts =>
    match collapseStep ts with
    | some ts2 => collapseCountFuel fuel ts2 + 1
    | none => 0

/-- Number of successful merge applications performed by `collapse`. -/
def collapseCount (ts : List (List String)) : Nat :=
  collapseCountFuel (stepMeasure ts + 1) ts


/-- All tokens mentioned by the rule catalog (prerequisites and
alternatives): the known-domain vocabulary in the sense of the spec. -/
def knownVocab : List String :=
  build_collapse_rules.flatMap (fun rule =>
    rule.prerequisites ++ rule.alternatives)

/-- The group contains a literal outside the known-domain vocabulary. -/
def hasUnknownLiteral (ts : List (List String)) : Prop :=
  ∃ c ∈ ts, ∃ t ∈ c, t ∉ knownVocab

instance (ts : List (List String)) : Decidable (hasUnknownLiteral ts) :=
  inferInstanceAs (Decidable (∃ c ∈ ts, ∃ t ∈ c, t ∉ knownVocab))

/-- An equality-style literal `(name == value)`: it starts with an opening
parenthesis. -/
def isEqualityLiteral (t : String) : Bool :=
  "(".data.isPrefixOf t.data

/-- A clause holds in a configuration (an assignment of truth values to
literal strings) when all its literals are true. -/
def evalClause (env : String → Bool) (c : List String) : Bool :=
  c.all env

/-- A group holds when some clause holds: the disjunction of its
clauses. -/
def evalGroup (env : String → Bool) (g : List (List String)) : Bool :=
  g.any (evalClause env)

/-- A rule is sound in a configuration when, whenever all its
prerequisites hold, exactly one of its alternatives holds (the
alternatives are mutually exclusive and jointly exhaustive there). -/
def ruleSound (env : String → Bool) (rule : CollapseRule) : Bool :=
  !(rule.prerequisites.all env) || (rule.alternatives.countP env == 1)

/-- The whole catalog is sound in a configuration. -/
def catalogSound (env : String → Bool) : Bool :=
  build_collapse_rules.all (ruleSound env)

/-- The plain literals true in the example configuration used against
claim C1: 64-bit Windows 10 with e10s and without webrender. -/
def cfgTrue : List String :=
  ["(os == \"win\")", "(version == \"10.0.15063\")", "e10s",
   "(processor == \"x86_64\")", "(bits == 64)"]

/-- The example configuration: a `"not "`-prefixed literal is true exactly
when its base literal is false, and a plain literal is true exactly when
it is listed in `cfgTrue`. -/
def exAssign (s : String) : Bool :=
  cond ("not ".data.isPrefixOf s.data)
    (!(cfgTrue.contains (String.mk (s.data.drop 4))))
    (cfgTrue.contains s)

/-- Example group whose reduction loses coverage: windows with webrender,
or windows 7. -/
def exGroup : List (List String) :=
  [["(os == \"win\")", "webrender"],
   ["(os == \"win\")", "(version == \"6.1.7601\")"]]

/-- All pairs `(i, j)` with `j < i < n`, in the scan order of the driver's
loop nests. -/
def pairList (n : Nat) : List (Nat × Nat) :=
  (List.range n).flatMap (fun i => (List.range i).map (fun j => (i, j)))

/-- The pairwise scan exactly as worded by the spec (claim C9): on each
pair attempt the generic flip-merge first and, failing that, each catalog
rule's two-clause merge, before moving to the next pair. -/
def specPairMerge (ts : List (List String)) : Option (List (List String)) :=
  (pairList ts.length).findSome? (fun ij =>
    (match try_collapse_flip (ts.getD ij.1 []) (ts.getD ij.2 []) with
     | some set => some set
     | none =>
       build_collapse_rules.findSome? (fun rule =>
         try_collapse2 (ts.getD ij.1 []) (ts.getD ij.2 []) rule)).map
      (fun set => (ts.set ij.2 set).eraseIdx ij.1))

/-- The spec's sweep lets one clause shrink repeatedly in a single sweep;
`c.length + 1` applications always reach the clause's fixed point because
each successful application removes a literal. -/
def sweepClause : Nat → List String → List String
  | 0, c => c
  | fuel + 1, c =>
    match build_collapse_rules.findSome? (fun rule => try_collapse c rule) with
    | some c2 => sweepClause fuel c2
    | none => c

/-- The spec's single-clause sweep over every remaining clause. -/
def specSweep (ts : List (List String)) : List (List String) :=
  ts.map (fun c => sweepClause (c.length + 1) c)

/-- One scanning step as described by the spec's words for claim C9:
per-pair flip-then-rules order, and otherwise a full single-clause
sweep. -/
def specStep (ts : List (List String)) : Option (List (List String)) :=
  match specPairMerge ts with
  | some r => some r
  | none => if specSweep ts == ts then none else some (specSweep ts)

/-- A group distinguishing the source's scan order from the spec's. -/
def specOrderGroup : List (List String) :=
  [["(os == \"win\")", "(version == \"6.1.7601\")", "e10s"],
   ["(os == \"win\")", "(version == \"10.0.15063\")", "e10s"],
   ["(os == \"win\")", "(version == \"6.1.7601\")", "not e10s"]]

/-- The driver's actual scan order, stated over explicit pair and clause
enumerations: a flip-merge phase over all pairs, then a rule-merge phase
over all pairs, then the first single-clause reduction, each restarting
the driver immediately. -/
def amendedStep (ts : List (List String)) : Option (List (List String)) :=
  match (pairList ts.length).findSome? (fun ij =>
      (try_collapse_flip (ts.getD ij.1 []) (ts.getD ij.2 [])).map
        (fun set => (ts.set ij.2 set).eraseIdx ij.1)) with
  | some r => some r
  | none =>
    match (pairList ts.length).findSome? (fun ij =>
        build_collapse_rules.findSome? (fun rule =>
          (try_collapse2 (ts.getD ij.1 []) (ts.getD ij.2 []) rule).map
            (fun set => (ts.set ij.2 set).eraseIdx ij.1))) with
    | some r => some r
    | none =>
      ts.enum.findSome? (fun ic =>
        build_collapse_rules.findSome? (fun rule =>
          (try_collapse ic.2 rule).map (fun set => ts.set ic.1 set)))

theorem flipScan_eq_some_iff (b : List String) (flipped : Bool) (a r : List String) :
    flipScan b flipped a = some r ↔
      (r = a.filter (fun t => b.contains t) ∧
       (a.filter (fun t => !(b.contains t))).length + (cond flipped 1 0) ≤ 1 ∧
       ∀ t ∈ a, t ∉ b → flip t ∈ b) := by
  induction a generalizing flipped r with
  | nil => cases flipped <;> simp [flipScan, eq_comm]
  | cons tok rest ih =>
    by_cases hb : tok ∈ b
    · have hbc : b.contains tok = true := by simpa using hb
      simp only [flipScan, hbc, if_true, List.filter_cons, Bool.not_true,
        Bool.false_eq_true, if_false, List.mem_cons]
      constructor
      · intro h
        obtain ⟨r', hr', rfl⟩ := Option.map_eq_some'.mp h
        obtain ⟨h1, h2, h3⟩ := (ih flipped r').mp hr'
        refine ⟨by rw [h1], h2, ?_⟩
        intro t ht htb
        rcases ht with rfl | ht'
        · exact absurd hb htb
        · exact h3 t ht' htb
      · rintro ⟨h1, h2, h3⟩
        rw [Option.map_eq_some']
        exact ⟨rest.filter (fun t => b.contains t),
          (ih flipped _).mpr ⟨rfl, h2,
            fun t ht htb => h3 t (Or.inr ht) htb⟩, h1.symm⟩
    · have hbc : b.contains tok = false := by simpa using hb
      cases flipped with
      | true =>
        simp only [flipScan, hbc, Bool.false_eq_true, if_false, Bool.not_true,
          Bool.false_and, List.filter_cons, Bool.not_false, if_true, cond_true,
          List.length_cons]
        constructor
        · intro h; exact absurd h (by simp)
        · rintro ⟨h1, h2, h3⟩; omega
      | false =>
        by_cases hf : flip tok ∈ b
        · have hfc : b.contains (flip tok) = true := by simpa using hf
          simp only [flipScan, hbc, Bool.false_eq_true, if_false,
            Bool.not_false, hfc, Bool.true_and, if_true, cond_false, cond_true,
            List.filter_cons, List.length_cons, List.mem_cons]
          rw [ih true r]
          simp only [cond_true]
          constructor
          · rintro ⟨h1, h2, h3⟩
            refine ⟨h1, by omega, ?_⟩
            intro t ht htb
            rcases ht with rfl | ht'
            · exact hf
            · exact h3 t ht' htb
          · rintro ⟨h1, h2, h3⟩
            exact ⟨h1, by omega, fun t ht htb => h3 t (Or.inr ht) htb⟩
        · have hfc : b.contains (flip tok) = false := by simpa using hf
          simp only [flipScan, hbc, Bool.false_eq_true, if_false,
            Bool.not_false, hfc, Bool.true_and, List.mem_cons]
          constructor
          · intro h; exact absurd h (by simp)
          · rintro ⟨h1, h2, h3⟩
            exact absurd (h3 tok (Or.inl rfl) hb) hf

theorem try_collapse_flip_eq_some_iff (a b r : List String) :
    try_collapse_flip a b = some r ↔
      (a.length = b.length ∧ r = a.filter (fun t => b.contains t) ∧
       (a.filter (fun t => !(b.contains t))).length ≤ 1 ∧
       ∀ t ∈ a, t ∉ b → flip t ∈ b) := by
  unfold try_collapse_flip
  by_cases h : a.length = b.length
  · simp only [h, bne_self_eq_false, Bool.false_eq_true, if_false]
    rw [flipScan_eq_some_iff]
    simp [h]
  · have hne : (a.length != b.length) = true := by simpa using h
    simp [hne, h]
theorem c2Scan_eq_some (b : List String) (rule : CollapseRule) :
    ∀ (matched : Bool) (a r : List String), c2Scan b rule matched a = some r →
      r = a.filter (fun t => b.contains t) := by
  intro matched a
  induction a generalizing matched with
  | nil => intro r h; simpa [c2Scan] using h.symm
  | cons tok rest ih =>
    intro r h
    by_cases hb : tok ∈ b
    · have hbc : b.contains tok = true := by simpa using hb
      simp only [c2Scan, hbc, if_true] at h
      obtain ⟨r', hr', rfl⟩ := Option.map_eq_some'.mp h
      simp [List.filter_cons, hbc, hb, ih matched r' hr']
    · have hbc : b.contains tok = false := by simpa using hb
      simp only [c2Scan, hbc, Bool.false_eq_true, if_false] at h
      rw [List.filter_cons]
      simp only [hbc, Bool.false_eq_true, if_false]
      cases matched with
      | true => simp at h
      | false =>
        cases halt : remaining_alt tok rule with
        | none => rw [halt] at h; simp at h
        | some alt =>
          rw [halt] at h
          by_cases hba : b.contains alt = true
          · simp only [hba, if_true] at h
            exact ih true r h
          · have : b.contains alt = false := by simpa using hba
            simp only [this, Bool.false_eq_true, if_false] at h
            exact ih false r h

theorem try_collapse2_eq_some (a b r : List String) (rule : CollapseRule)
    (h : try_collapse2 a b rule = some r) :
    a.length = b.length ∧ r = a.filter (fun t => b.contains t) := by
  unfold try_collapse2 at h
  by_cases h2 : rule.alternatives.length = 2
  · simp only [h2, bne_self_eq_false, Bool.false_eq_true, if_false] at h
    by_cases hl : a.length = b.length
    · simp only [hl, bne_self_eq_false, Bool.false_eq_true, if_false] at h
      refine ⟨hl, ?_⟩
      by_cases hp : match_prereqs rule a
      · simp only [hp, Bool.not_true, Bool.false_eq_true, if_false] at h
        by_cases hq : match_prereqs rule b
        · simp only [hq, Bool.not_true, Bool.false_eq_true, if_false] at h
          exact c2Scan_eq_some b rule false a r h
        · have hq' : match_prereqs rule b = false := by simpa using hq
          simp [hq'] at h
      · have hp' : match_prereqs rule a = false := by simpa using hp
        simp [hp'] at h
    · have : (a.length != b.length) = true := by simpa using hl
      simp [this] at h
  · have : (rule.alternatives.length != 2) = true := by simpa using h2
    simp [this] at h

theorem try_collapse_eq_some (c r : List String) (rule : CollapseRule)
    (h : try_collapse c rule = some r) : r.length < c.length := by
  unfold try_collapse at h
  cases halts : rule.alternatives with
  | nil => rw [halts] at h; simp at h
  | cons alt tl =>
    cases tl with
    | cons x xs => rw [halts] at h; simp at h
    | nil =>
      rw [halts] at h
      by_cases hp : match_prereqs rule c
      · simp only [hp, if_true] at h
        by_cases ht : has_token alt c
        · simp only [ht, if_true, Option.some.injEq] at h
          subst h
          have hmem : alt ∈ c := by
            obtain ⟨x, hx, hbeq⟩ := List.any_eq_true.mp ht
            rwa [eq_of_beq hbeq] at hx
          exact List.length_filter_lt_length_iff_exists.mpr
            ⟨alt, hmem, by simp⟩
        · simp [ht] at h
      · simp [hp] at h

theorem totalLits_eraseIdx_le (ts : List (List String)) (i : Nat) :
    totalLits (ts.eraseIdx i) ≤ totalLits ts := by
  induction ts generalizing i with
  | nil => simp [List.eraseIdx]
  | cons c rest ih =>
    cases i with
    | zero => simp [List.eraseIdx, totalLits]
    | succ n =>
      simp only [List.eraseIdx, totalLits, List.map_cons, List.sum_cons]
      exact Nat.add_le_add_left (ih n) _

theorem totalLits_set_le (ts : List (List String)) (j : Nat) (c : List String)
    (h : c.length ≤ (ts.getD j []).length) :
    totalLits (ts.set j c) ≤ totalLits ts := by
  induction ts generalizing j with
  | nil => simp [List.set]
  | cons hd rest ih =>
    cases j with
    | zero =>
      simp only [List.set, totalLits, List.map_cons, List.sum_cons]
      exact Nat.add_le_add_right (by simpa [List.getD] using h) _
    | succ n =>
      simp only [List.set, totalLits, List.map_cons, List.sum_cons]
      exact Nat.add_le_add_left (ih n (by simpa [List.getD] using h)) _

theorem totalLits_set_lt (ts : List (List String)) (j : Nat) (c : List String)
    (hj : j < ts.length) (h : c.length < (ts.getD j []).length) :
    totalLits (ts.set j c) < totalLits ts := by
  induction ts generalizing j with
  | nil => simp at hj
  | cons hd rest ih =>
    cases j with
    | zero =>
      simp only [List.set, totalLits, List.map_cons, List.sum_cons]
      exact Nat.add_lt_add_right (by simpa [List.getD] using h) _
    | succ n =>
      simp only [List.set, totalLits, List.map_cons, List.sum_cons]
      exact Nat.add_lt_add_left
        (ih n (by simpa using hj) (by simpa [List.getD] using h)) _

theorem exists_of_firstFlipMerge {ts ts2 : List (List String)}
    (h : firstFlipMerge ts = some ts2) :
    ∃ i j set, i < ts.length ∧ j < i ∧
      try_collapse_flip (ts.getD i []) (ts.getD j []) = some set ∧
      ts2 = (ts.set j set).eraseIdx i := by
  obtain ⟨i, hi, h1⟩ := List.exists_of_findSome?_eq_some h
  obtain ⟨j, hj, h2⟩ := List.exists_of_findSome?_eq_some h1
  obtain ⟨set, hset, hres⟩ := Option.map_eq_some'.mp h2
  exact ⟨i, j, set, List.mem_range.mp hi, List.mem_range.mp hj, hset, hres.symm⟩

theorem exists_of_firstRuleMerge {ts ts2 : List (List String)}
    (h : firstRuleMerge ts = some ts2) :
    ∃ i j rule set, i < ts.length ∧ j < i ∧ rule ∈ build_collapse_rules ∧
      try_collapse2 (ts.getD i []) (ts.getD j []) rule = some set ∧
      ts2 = (ts.set j set).eraseIdx i := by
  obtain ⟨i, hi, h1⟩ := List.exists_of_findSome?_eq_some h
  obtain ⟨j, hj, h2⟩ := List.exists_of_findSome?_eq_some h1
  obtain ⟨rule, hrule, h3⟩ := List.exists_of_findSome?_eq_some h2
  obtain ⟨set, hset, hres⟩ := Option.map_eq_some'.mp h3
  exact ⟨i, j, rule, set, List.mem_range.mp hi, List.mem_range.mp hj, hrule,
    hset, hres.symm⟩

theorem exists_of_firstSingle {ts ts2 : List (List String)}
    (h : firstSingle ts = some ts2) :
    ∃ i rule set, i < ts.length ∧ rule ∈ build_collapse_rules ∧
      try_collapse (ts.getD i []) rule = some set ∧
      ts2 = ts.set i set := by
  obtain ⟨i, hi, h1⟩ := List.exists_of_findSome?_eq_some h
  obtain ⟨rule, hrule, h2⟩ := List.exists_of_findSome?_eq_some h1
  obtain ⟨set, hset, hres⟩ := Option.map_eq_some'.mp h2
  exact ⟨i, rule, set, List.mem_range.mp hi, hrule, hset, hres.symm⟩

theorem pairMerge_shrinks {ts : List (List String)} {i j : Nat}
    {set : List String} (hi : i < ts.length) (hj : j < i)
    (hlen : set.length ≤ (ts.getD j []).length) :
    ((ts.set j set).eraseIdx i).length + 1 = ts.length ∧
      1 ≤ ((ts.set j set).eraseIdx i).length ∧
      totalLits ((ts.set j set).eraseIdx i) ≤ totalLits ts := by
  have hi' : i < (ts.set j set).length := by rwa [List.length_set]
  have hlen1 : ((ts.set j set).eraseIdx i).length = ts.length - 1 := by
    rw [List.length_eraseIdx_of_lt hi', List.length_set]
  refine ⟨by omega, by omega, ?_⟩
  exact le_trans (totalLits_eraseIdx_le _ i) (totalLits_set_le ts j set hlen)

theorem collapseStep_cases {ts ts2 : List (List String)}
    (h : collapseStep ts = some ts2) :
    (ts2.length + 1 = ts.length ∧ 1 ≤ ts2.length ∧
       totalLits ts2 ≤ totalLits ts) ∨
    (ts2.length = ts.length ∧ 1 ≤ ts.length ∧
       totalLits ts2 < totalLits ts) := by
  unfold collapseStep at h
  cases hf : firstFlipMerge ts with
  | some r =>
    rw [hf] at h
    obtain rfl : r = ts2 := by simpa using h
    left
    obtain ⟨i, j, set, hi, hj, hm, rfl⟩ := exists_of_firstFlipMerge hf
    obtain ⟨hlen, hset, -, -⟩ := (try_collapse_flip_eq_some_iff _ _ _).mp hm
    exact pairMerge_shrinks hi hj
      (by rw [hset, ← hlen]; exact List.length_filter_le _ _)
  | none =>
    rw [hf] at h
    cases hr : firstRuleMerge ts with
    | some r =>
      rw [hr] at h
      obtain rfl : r = ts2 := by simpa using h
      left
      obtain ⟨i, j, rule, set, hi, hj, -, hm, rfl⟩ := exists_of_firstRuleMerge hr
      obtain ⟨hlen, hset⟩ := try_collapse2_eq_some _ _ _ _ hm
      exact pairMerge_shrinks hi hj
        (by rw [hset, ← hlen]; exact List.length_filter_le _ _)
    | none =>
      rw [hr] at h
      right
      obtain ⟨i, rule, set, hi, -, hm, rfl⟩ := exists_of_firstSingle h
      have hlt := try_collapse_eq_some _ _ _ hm
      refine ⟨List.length_set .., by omega, totalLits_set_lt ts i set hi hlt⟩

theorem collapseStep_measure_lt {ts ts2 : List (List String)}
    (h : collapseStep ts = some ts2) : stepMeasure ts2 < stepMeasure ts := by
  unfold stepMeasure
  rcases collapseStep_cases h with ⟨h1, h2, h3⟩ | ⟨h1, h2, h3⟩ <;> omega

theorem collapseFuel_fix {fuel : Nat} {ts : List (List String)}
    (h : stepMeasure ts < fuel) :
    collapseStep (collapseFuel fuel ts) = none := by
  induction fuel generalizing ts with
  | zero => omega
  | succ n ih =>
    cases hs : collapseStep ts with
    | some ts2 =>
      have hlt : stepMeasure ts2 < n :=
        lt_of_lt_of_le (collapseStep_measure_lt hs) (Nat.lt_succ_iff.mp h)
      simpa [collapseFuel, hs] using ih hlt
    | none => simp [collapseFuel, hs]

theorem collapseStep_collapse (ts : List (List String)) :
    collapseStep (collapse ts) = none :=
  collapseFuel_fix (Nat.lt_succ_self _)

theorem collapseFuel_of_none {ts : List (List String)}
    (h : collapseStep ts = none) (fuel : Nat) : collapseFuel fuel ts = ts := by
  cases fuel <;> simp [collapseFuel, h]

theorem stepMeasure_collapseFuel_le (fuel : Nat) (ts : List (List String)) :
    stepMeasure (collapseFuel fuel ts) ≤ stepMeasure ts := by
  induction fuel generalizing ts with
  | zero => simp [collapseFuel]
  | succ n ih =>
    cases hs : collapseStep ts with
    | some ts2 =>
      simp only [collapseFuel, hs]
      exact le_trans (ih ts2) (le_of_lt (collapseStep_measure_lt hs))
    | none => simp [collapseFuel, hs]

theorem collapse_eq_self_iff (ts : List (List String)) :
    collapse ts = ts ↔ collapseStep ts = none := by
  constructor
  · intro h
    cases hs : collapseStep ts with
    | none => rfl
    | some ts2 =>
      exfalso
      have h1 : collapse ts = collapseFuel (stepMeasure ts) ts2 := by
        simp [collapse, collapseFuel, hs]
      have h2 := stepMeasure_collapseFuel_le (stepMeasure ts) ts2
      have h3 := collapseStep_measure_lt hs
      rw [h] at h1
      rw [← h1] at h2
      omega
  · intro h
    exact collapseFuel_of_none h _

theorem collapseCountFuel_le {fuel : Nat} {ts : List (List String)}
    (h : stepMeasure ts < fuel) (hne : 0 < ts.length) :
    collapseCountFuel fuel ts + 1 ≤ stepMeasure ts := by
  induction fuel generalizing ts with
  | zero => omega
  | succ n ih =>
    cases hs : collapseStep ts with
    | none =>
      simp only [collapseCountFuel, hs]
      unfold stepMeasure
      omega
    | some ts2 =>
      have hm := collapseStep_measure_lt hs
      have hpos : 0 < ts2.length := by
        rcases collapseStep_cases hs with ⟨h1, h2, h3⟩ | ⟨h1, h2, h3⟩ <;> omega
      have hrec := @ih ts2 (by omega) hpos
      simp only [collapseCountFuel, hs]
      omega

theorem totalLits_le_mul {ts : List (List String)} {k : Nat}
    (h : ∀ c ∈ ts, c.length ≤ k) : totalLits ts ≤ ts.length * k := by
  induction ts with
  | nil => simp [totalLits]
  | cons c rest ih =>
    have h1 : c.length ≤ k := h c (List.mem_cons_self ..)
    have h2 := ih (fun d hd => h d (List.mem_cons_of_mem _ hd))
    simp only [totalLits, List.map_cons, List.sum_cons, List.length_cons] at h2 ⊢
    calc c.length + (rest.map List.length).sum ≤ k + rest.length * k := by omega
    _ = (rest.length + 1) * k := by ring

theorem try_collapse_flip_self (a : List String) :
    try_collapse_flip a a = some a := by
  rw [try_collapse_flip_eq_some_iff]
  refine ⟨rfl, ?_, ?_, ?_⟩
  · symm
    rw [List.filter_eq_self]
    intro x hx
    simpa using hx
  · have hgen : ∀ p : String → Bool, (∀ x ∈ a, ¬ p x = true) →
        (a.filter p).length ≤ 1 := by
      intro p hp
      rw [List.filter_eq_nil_iff.mpr hp]
      simp
    exact hgen _ (fun x hx => by simp [hx])
  · intro t ht htn
    exact absurd ht htn

theorem collapse_nodup (ts : List (List String)) : (collapse ts).Nodup := by
  have hstep := collapseStep_collapse ts
  unfold collapseStep at hstep
  cases hf : firstFlipMerge (collapse ts) with
  | some r => rw [hf] at hstep; simp at hstep
  | none =>
    have hall := List.findSome?_eq_none_iff.mp hf
    refine List.pairwise_iff_getElem.mpr ?_
    intro i j hi hj hij heq
    have h1 := hall j (List.mem_range.mpr hj)
    have h2 := List.findSome?_eq_none_iff.mp h1 i (List.mem_range.mpr hij)
    rw [Option.map_eq_none'] at h2
    rw [List.getD_eq_getElem _ _ hj, List.getD_eq_getElem _ _ hi] at h2
    rw [heq] at h2
    rw [try_collapse_flip_self] at h2
    exact Option.noConfusion h2

theorem findSome?_flatMap {α β γ : Type} (l : List α) (g : α → List β)
    (f : β → Option γ) :
    (l.flatMap g).findSome? f = l.findSome? (fun a => (g a).findSome? f) := by
  induction l with
  | nil => simp
  | cons a tl ih =>
    rw [List.flatMap_cons, List.findSome?_append, List.findSome?_cons, ih]
    cases h : (g a).findSome? f <;> simp [Option.or]

theorem findSome?_pairList {β : Type} (n : Nat) (f : Nat × Nat → Option β) :
    (pairList n).findSome? f =
      (List.range n).findSome? (fun i =>
        (List.range i).findSome? (fun j => f (i, j))) := by
  unfold pairList
  rw [findSome?_flatMap]
  congr 1
  funext i
  rw [List.findSome?_map]
  rfl

theorem findSome?_enumFrom {α β : Type} (l : List α) (d : α) :
    ∀ (n : Nat) (F : Nat → α → Option β),
      (l.enumFrom n).findSome? (fun p => F p.1 p.2) =
        (List.range l.length).findSome? (fun i => F (n + i) (l.getD i d)) := by
  induction l with
  | nil => intro n F; simp
  | cons a tl ih =>
    intro n F
    rw [List.enumFrom_cons, List.length_cons, List.range_succ_eq_map]
    simp only [List.findSome?_cons, List.findSome?_map]
    simp only [List.getD_cons_zero, Nat.add_zero]
    cases hFa : F n a with
    | some b => rfl
    | none =>
      rw [ih (n + 1) F]
      show List.findSome? (fun i => F (n + 1 + i) (tl.getD i d))
            (List.range tl.length) =
          List.findSome? ((fun i => F (n + i) ((a :: tl).getD i d)) ∘ Nat.succ)
            (List.range tl.length)
      congr 1
      funext i
      simp only [Function.comp, Nat.succ_eq_add_one, List.getD_cons_succ]
      have harith : n + 1 + i = n + (i + 1) := by omega
      rw [harith]

theorem firstSingle_eq_enum (ts : List (List String)) :
    ts.enum.findSome? (fun ic =>
      build_collapse_rules.findSome? (fun rule =>
        (try_collapse ic.2 rule).map (fun set => ts.set ic.1 set))) =
    firstSingle ts := by
  unfold firstSingle
  have h := findSome?_enumFrom ts ([] : List String) 0
    (fun i c => build_collapse_rules.findSome? (fun rule =>
      (try_collapse c rule).map (fun set => ts.set i set)))
  simpa using h

theorem collapseStep_eq_amendedStep (ts : List (List String)) :
    collapseStep ts = amendedStep ts := by
  have e1 : (pairList ts.length).findSome? (fun ij =>
      (try_collapse_flip (ts.getD ij.1 []) (ts.getD ij.2 [])).map
        (fun set => (ts.set ij.2 set).eraseIdx ij.1)) = firstFlipMerge ts := by
    rw [findSome?_pairList]
    rfl
  have e2 : (pairList ts.length).findSome? (fun ij =>
      build_collapse_rules.findSome? (fun rule =>
        (try_collapse2 (ts.getD ij.1 []) (ts.getD ij.2 []) rule).map
          (fun set => (ts.set ij.2 set).eraseIdx ij.1))) = firstRuleMerge ts := by
    rw [findSome?_pairList]
    rfl
  have e3 := firstSingle_eq_enum ts
  unfold collapseStep amendedStep
  rw [e1, e2, e3]

theorem match_prereqs_iff (rule : CollapseRule) (ts : List String) :
    match_prereqs rule ts = true ↔ ∀ p ∈ rule.prerequisites, p ∈ ts := by
  unfold match_prereqs
  rw [List.all_eq_true]
  constructor
  · intro h p hp
    obtain ⟨t, ht, hbeq⟩ := List.any_eq_true.mp (h p hp)
    rwa [← eq_of_beq hbeq]
  · intro h p hp
    exact List.any_eq_true.mpr ⟨p, h p hp, by simp⟩

theorem has_token_iff (token : String) (ts : List String) :
    has_token token ts = true ↔ token ∈ ts := by
  unfold has_token
  rw [List.any_eq_true]
  constructor
  · rintro ⟨t, ht, hbeq⟩
    rwa [← eq_of_beq hbeq]
  · intro h
    exact ⟨token, h, by simp⟩

theorem flip_of_plain {t : String}
    (h : "not ".data.isPrefixOf t.data = false) : flip t = "not " ++ t := by
  simp [flip, h]

theorem isEqualityLiteral_not_prefixed {t : String}
    (h : isEqualityLiteral t = true) :
    "not ".data.isPrefixOf t.data = false := by
  unfold isEqualityLiteral at h
  cases hd : t.data with
  | nil => rw [hd] at h; simp [List.isPrefixOf] at h
  | cons c cs =>
    rw [hd] at h
    have hc : c = '(' := by
      simp [show "(".data = ['('] from rfl, List.isPrefixOf] at h
      exact h.symm
    subst hc
    simp [show "not ".data = ['n', 'o', 't', ' '] from rfl, List.isPrefixOf]

theorem exAssign_flip_consistent (t : String)
    (h : "not ".data.isPrefixOf t.data = false) :
    exAssign ("not " ++ t) = !(exAssign t) := by
  unfold exAssign
  have hdata : ("not " ++ t).data = "not ".data ++ t.data := rfl
  rw [hdata]
  have hpre : "not ".data.isPrefixOf ("not ".data ++ t.data) = true := by
    simp [ List.isPrefixOf_iff_prefix]
  rw [hpre, h]
  simp only [cond_true, cond_false]
  have hdrop : ("not ".data ++ t.data).drop 4 = t.data := by
    have h4 : "not ".data.length = 4 := rfl
    rw [← h4]
    exact List.drop_left _ _
  rw [hdrop]

/-- C1: with the fixed catalog, reduction does not preserve the denoted
subset of the configuration space: `exAssign` is a configuration in which
every catalog rule's alternatives are exclusive and exhaustive under its
prerequisites, yet the collapsed form of `exGroup` holds in it while
`exGroup` itself does not.  (Root cause: the fall-through in
`try_collapse2`; see C2.) -/
theorem collapse_breaks_equivalence :
    catalogSound exAssign = true ∧
    collapse exGroup = [["(os == \"win\")"]] ∧
    evalGroup exAssign exGroup = false ∧
    evalGroup exAssign (collapse exGroup) = true := by decide

/-- C2: the rule-guided two-clause merge does not fail when a literal of
`A` is one of the rule's alternatives but `B` contains neither that
literal nor the other alternative: for the catalog's windows
version-collapsing rule, merging `{win, version6.1}` with
`{win, webrender}` silently drops the version literal and succeeds with
`{win}` instead of returning no result. -/
theorem try_collapse2_drops_unmatched_alternative :
    (⟨["(os == \"win\")"],
      ["(version == \"6.1.7601\")", "(version == \"10.0.15063\")"]⟩ :
        CollapseRule) ∈ build_collapse_rules ∧
    try_collapse2
      ["(os == \"win\")", "(version == \"6.1.7601\")"]
      ["(os == \"win\")", "webrender"]
      ⟨["(os == \"win\")"],
       ["(version == \"6.1.7601\")", "(version == \"10.0.15063\")"]⟩ =
      some ["(os == \"win\")"] := by decide

/-- C3 counterexample: a group whose literals are all outside the known
vocabulary is not returned unchanged: the generic flip-merge still fires
and collapses it. -/
theorem unknown_literal_group_still_merged :
    hasUnknownLiteral [["foo"], ["not foo"]] ∧
    collapse [["foo"], ["not foo"]] = [[]] ∧
    collapse [["foo"], ["not foo"]] ≠ [["foo"], ["not foo"]] := by decide

/-- C3 amended: the driver performs no vocabulary check at all; a group
containing a literal outside the known vocabulary is returned unchanged
exactly when no merge operator fires on it, like any other group. -/
theorem unknown_literal_no_failsafe (ts : List (List String))
    (_h : hasUnknownLiteral ts) :
    collapse ts = ts ↔ collapseStep ts = none :=
  collapse_eq_self_iff ts

theorem unknown_literal_no_failsafe_witness :
    hasUnknownLiteral [["foo"]] ∧
    (collapse [["foo"]] = [["foo"]] ↔ collapseStep [["foo"]] = none) :=
  ⟨by decide, unknown_literal_no_failsafe [["foo"]] (by decide)⟩

/-- C4: the generic flip-merge succeeds exactly when the clauses have
equal length and every literal of `A` is in `B` except at most one whose
textual negation is in `B`; the result keeps exactly the literals of `A`
present in `B`.  In particular `{A, B, not X}` merges with `{A, B, X}`
to `{A, B}`, and clauses differing in two literals never merge. -/
theorem flip_merge_characterization :
    (∀ a b r : List String,
      try_collapse_flip a b = some r ↔
        (a.length = b.length ∧ r = a.filter (fun t => b.contains t) ∧
         (a.filter (fun t => !(b.contains t))).length ≤ 1 ∧
         ∀ t ∈ a, t ∉ b → flip t ∈ b)) ∧
    try_collapse_flip ["A", "B", "not X"] ["A", "B", "X"] = some ["A", "B"] :=
  ⟨try_collapse_flip_eq_some_iff, by decide⟩

/-- C5 counterexample: an equality literal is flipped by the generic
flip-merge when the other clause contains its `"not "`-prefixed form. -/
theorem equality_literal_flipped :
    isEqualityLiteral "(x == 1)" = true ∧
    try_collapse_flip ["(x == 1)"] ["not (x == 1)"] = some [] := by decide

/-- C5 amended: the flip is purely textual and does not special-case
equality literals; an equality literal of one clause is consumed by a
flip-merge only when the other clause contains literally `"not "`
prepended to it — so two equality literals with different values never
flip against each other, but an explicit `"not (…)"` literal does. -/
theorem equality_literal_flip_needs_textual_negation
    (a b r : List String) (t : String)
    (heq : isEqualityLiteral t = true)
    (h : try_collapse_flip a b = some r)
    (hmem : t ∈ a) (hnot : t ∉ b) : ("not " ++ t) ∈ b := by
  obtain ⟨-, -, -, hflip⟩ := (try_collapse_flip_eq_some_iff a b r).mp h
  have h1 := hflip t hmem hnot
  rwa [flip_of_plain (isEqualityLiteral_not_prefixed heq)] at h1

theorem equality_literal_flip_needs_textual_negation_witness :
    isEqualityLiteral "(x == 1)" = true ∧
    ("not " ++ "(x == 1)") ∈ ["not (x == 1)"] :=
  ⟨by decide,
   equality_literal_flip_needs_textual_negation ["(x == 1)"]
     ["not (x == 1)"] [] "(x == 1)" (by decide) (by decide) (by decide)
     (by decide)⟩

/-- C6: for a duplicate-free clause, a rule with exactly one alternative
reduces the clause to the clause with the alternative removed exactly
when all prerequisites and the alternative are present; otherwise (wrong
number of alternatives, missing prerequisite, absent alternative) it
returns no result. -/
theorem single_clause_reduction_spec (ts : List String) (rule : CollapseRule)
    (hnd : ts.Nodup) :
    (∀ alt, rule.alternatives = [alt] →
      (((∀ p ∈ rule.prerequisites, p ∈ ts) ∧ alt ∈ ts) →
          try_collapse ts rule = some (ts.erase alt)) ∧
      (¬((∀ p ∈ rule.prerequisites, p ∈ ts) ∧ alt ∈ ts) →
          try_collapse ts rule = none)) ∧
    (rule.alternatives.length ≠ 1 → try_collapse ts rule = none) := by
  constructor
  · intro alt halt
    constructor
    · rintro ⟨hpre, hmem⟩
      unfold try_collapse
      rw [halt]
      have hp := (match_prereqs_iff rule ts).mpr hpre
      have htok : has_token alt ts = true := (has_token_iff alt ts).mpr hmem
      simp only [hp, htok, if_true]
      rw [hnd.erase_eq_filter alt]
      rfl
    · intro hneg
      unfold try_collapse
      rw [halt]
      by_cases hp : match_prereqs rule ts = true
      · have hmem' : ¬ alt ∈ ts := fun hmem =>
          hneg ⟨(match_prereqs_iff rule ts).mp hp, hmem⟩
        have htok : has_token alt ts = false := by
          rw [← Bool.not_eq_true]
          exact fun hh => hmem' ((has_token_iff _ _).mp hh)
        simp [hp, htok]
      · have hp' : match_prereqs rule ts = false := by simpa using hp
        simp [hp']
  · intro hlen
    cases halts : rule.alternatives with
    | nil => simp [try_collapse, halts]
    | cons a tl =>
      cases tl with
      | nil => exact absurd (by rw [halts]; rfl) hlen
      | cons b tl2 => simp [try_collapse, halts]

theorem single_clause_reduction_spec_witness :
    try_collapse ["(os == \"mac\")", "q", "e10s"]
      ⟨["(os == \"mac\")"], ["e10s"]⟩ = some ["(os == \"mac\")", "q"] := by
  have h := ((single_clause_reduction_spec ["(os == \"mac\")", "q", "e10s"]
    ⟨["(os == \"mac\")"], ["e10s"]⟩ (by decide)).1 "e10s" rfl).1
    (by constructor <;> decide)
  rw [h]
  decide

/-- C7 counterexample: the `n * k` bound on successful merges fails for a
group of two empty clauses, which the flip-merge collapses once although
`n * k = 0`. -/
theorem termination_bound_violated :
    (∀ c ∈ ([[], []] : List (List String)), c.length ≤ 0) ∧
    collapseCount ([[], []] : List (List String)) = 1 ∧
    ¬ (collapseCount ([[], []] : List (List String)) ≤ 2 * 0) := by decide

/-- C7 amended: every successful merge strictly decreases the clause
count or the total literal count, and a nonempty group of `n` clauses
with at most `k` literals each converges after at most `n * k + n - 1`
successful merge applications. -/
theorem termination_measure_and_bound :
    (∀ ts ts2 : List (List String), collapseStep ts = some ts2 →
        ts2.length < ts.length ∨ totalLits ts2 < totalLits ts) ∧
    (∀ (ts : List (List String)) (k : Nat), 0 < ts.length →
        (∀ c ∈ ts, c.length ≤ k) →
        collapseCount ts ≤ ts.length * k + ts.length - 1) := by
  constructor
  · intro ts ts2 h
    rcases collapseStep_cases h with ⟨h1, h2, h3⟩ | ⟨h1, h2, h3⟩
    · left; omega
    · right; exact h3
  · intro ts k hpos hk
    have h1 : collapseCount ts + 1 ≤ stepMeasure ts :=
      collapseCountFuel_le (Nat.lt_succ_self _) hpos
    have h2 := totalLits_le_mul hk
    unfold stepMeasure at h1
    omega

theorem termination_measure_and_bound_witness :
    (([["(os == \"mac\")"]] : List (List String)).length <
        ([["(os == \"mac\")", "e10s"]] : List (List String)).length ∨
      totalLits [["(os == \"mac\")"]] <
        totalLits [["(os == \"mac\")", "e10s"]]) ∧
    collapseCount [["(os == \"mac\")", "e10s"]] ≤ 1 * 2 + 1 - 1 :=
  ⟨termination_measure_and_bound.1 [["(os == \"mac\")", "e10s"]]
      [["(os == \"mac\")"]] (by decide),
   termination_measure_and_bound.2 [["(os == \"mac\")", "e10s"]] 2
      (by decide) (by decide)⟩

/-- C8: running the driver on an already collapsed group returns it
unchanged — the driver is idempotent. -/
theorem driver_idempotent (ts : List (List String)) :
    collapse (collapse ts) = collapse ts :=
  (collapse_eq_self_iff (collapse ts)).mpr (collapseStep_collapse ts)

/-- C9 counterexample: the spec's per-pair flip-then-rules scan and the
source's phase-separated scan choose different first merges on
`specOrderGroup`: the source flip-merges clauses 2 and 0, the spec's
order rule-merges clauses 1 and 0. -/
theorem scan_order_differs :
    collapseStep specOrderGroup =
      some [["(os == \"win\")", "(version == \"6.1.7601\")"],
        ["(os == \"win\")", "(version == \"10.0.15063\")", "e10s"]] ∧
    specStep specOrderGroup =
      some [["(os == \"win\")", "e10s"],
        ["(os == \"win\")", "(version == \"6.1.7601\")", "not e10s"]] ∧
    collapseStep specOrderGroup ≠ specStep specOrderGroup := by decide

/-- C9 amended: the driver scans in three separate phases — the generic
flip-merge over all pairs `(i, j)` with `j < i` in lexicographic order,
then the catalog rules over the same pairs, then the first single-clause
reduction (restarting immediately after it, with no multi-shrink sweep);
on a pairwise success clause `j` is overwritten and clause `i` removed. -/
theorem driver_scan_order (ts : List (List String)) :
    collapseStep ts = amendedStep ts :=
  collapseStep_eq_amendedStep ts

/-- C10: flip-merging a clause with an identical clause succeeds and
returns the clause itself, so the collapsed form of any group contains no
duplicate clauses. -/
theorem duplicate_clauses_merge :
    (∀ a : List String, try_collapse_flip a a = some a) ∧
    (∀ ts : List (List String), (collapse ts).Nodup) :=
  ⟨try_collapse_flip_self, collapse_nodup⟩


theorem flip_merge_characterization_witness :
    try_collapse_flip ["A", "B", "not X"] ["A", "B", "X"] = some ["A", "B"] :=
  flip_merge_characterization.2

theorem driver_idempotent_witness :
    collapse (collapse [["e10s"]]) = collapse [["e10s"]] :=
  driver_idempotent [["e10s"]]

theorem driver_scan_order_witness :
    collapseStep [["q"]] = amendedStep [["q"]] :=
  driver_scan_order [["q"]]

theorem duplicate_clauses_merge_witness :
    try_collapse_flip ["z"] ["z"] = some ["z"] ∧
    (collapse [["z"], ["z"]]).Nodup :=
  ⟨duplicate_clauses_merge.1 ["z"], duplicate_clauses_merge.2 [["z"], ["z"]]⟩

end SuperCollapser
